import Mathlib

/-!
Verification development for the `limit-order-book` repository.

The Python sources (`lob.py`, `market.py`, `configuration.py`) are embedded
shallowly below: prices and tick sizes are exact rationals (`ℚ`), volumes and
timestamps are integers, Python list mutation becomes functional list update,
and code paths that would raise an `IndexError` return `none`.  Python's
`int(...)` conversion truncates toward zero; the helper `pyInt` embeds it.
-/

set_option allowUnsafeReducibility true
attribute [local semireducible] Rat.add Rat.mul Rat.sub Rat.div Rat.inv Rat.neg

namespace LOB

/-- `OrderType` enum from `lob.py`. -/
inductive OrderType where
  | market_order
  | limit_order
  | cancel_order
  | midpoint_order
deriving DecidableEq, Repr

/-- `Side` enum from `lob.py`. -/
inductive Side where
  | buy
  | sell
deriving DecidableEq, Repr

/-- `Trade` object from `lob.py` (the generated `exec_id` string is dropped:
it is never read by any algorithm). -/
structure Trade where
  timestamp : ℤ
  price : ℚ
  qty : ℤ
  order_type : OrderType
deriving DecidableEq, Repr

/-- `Order` object from `lob.py` (the generated `order_id` string and the
never-read `partial_fill` flag are dropped).  `level` and `qty` are the
nonnegative integers the data model and the generator produce. -/
structure Order where
  timestamp : ℤ
  order_type : OrderType
  side : Side
  level : ℕ
  qty : ℕ
deriving DecidableEq, Repr

/-- Python `int(q)` on a rational: truncation toward zero
(`Int.tdiv` is t-division, which truncates toward zero, and a rational's
denominator is positive). -/
def pyInt (q : ℚ) : ℤ := q.num.tdiv q.den

/-- `OrderBookSnapshot` state from `lob.py`: best bid `nbb`, best ask `nbo`,
the `spread` field computed at construction, and per-level volumes (index 0 is
the volume at the best price of that side). -/
structure OrderBookSnapshot where
  timestamp : ℤ
  tick : ℚ
  nbb : ℚ
  nbo : ℚ
  spread : ℤ
  bid_vol : List ℤ
  ask_vol : List ℤ
  book_depth : ℕ
  trades : List Trade
deriving DecidableEq, Repr

/-- `OrderBookSnapshot.__init__`: the `spread` field is set to
`int((nbo - nbb) / tick)` and the trade list starts empty. -/
def OrderBookSnapshot.init (time : ℤ) (tick nbb nbo : ℚ) (bid_vol ask_vol : List ℤ)
    (book_depth : ℕ) : OrderBookSnapshot :=
  { timestamp := time
    tick := tick
    nbb := nbb
    nbo := nbo
    spread := pyInt ((nbo - nbb) / tick)
    bid_vol := bid_vol
    ask_vol := ask_vol
    book_depth := book_depth
    trades := [] }

/-- `OrderBookSnapshot.update_trade`: append an execution stamped with the
snapshot's own timestamp. -/
def OrderBookSnapshot.update_trade (s : OrderBookSnapshot) (price : ℚ) (qty : ℤ)
    (ot : OrderType) : OrderBookSnapshot :=
  { s with trades := s.trades ++ [⟨s.timestamp, price, qty, ot⟩] }

/-- Core of `process_cancel_order`, acting on the side-selected volume list and
best price (`tick_adj` is `-tick` for BUY, `+tick` for SELL).  Reading past the
end of the list is Python's `IndexError`, hence `none`. -/
def cancelCore (tick_adj : ℚ) (level : ℕ) (qty : ℕ) (book_vol : List ℤ) (nbbo : ℚ) :
    Option (List ℤ × ℚ) :=
  match book_vol[level]? with
  | none => none
  | some v =>
    if level = 0 ∧ (book_vol.set level (v - min (qty : ℤ) v))[0]? = some 0 then
      some ((book_vol.set level (v - min (qty : ℤ) v)).tail, nbbo + tick_adj)
    else
      some (book_vol.set level (v - min (qty : ℤ) v), nbbo)

/-- `OrderBookSnapshot.process_cancel_order`: dispatch `book_map` on the order
side and write back the selected volume list and best price. -/
def OrderBookSnapshot.process_cancel_order (s : OrderBookSnapshot) (o : Order) :
    Option OrderBookSnapshot :=
  match o.side with
  | .buy =>
    (cancelCore (-s.tick) o.level o.qty s.bid_vol s.nbb).map
      (fun r => { s with bid_vol := r.1, nbb := r.2 })
  | .sell =>
    (cancelCore s.tick o.level o.qty s.ask_vol s.nbo).map
      (fun r => { s with ask_vol := r.1, nbo := r.2 })

/-- The `while lvl <= new_order.level` loop of `process_sweep_order`, with the
remaining iteration count as fuel (`count = new_order.level + 1 - lvl`): each
iteration records a trade for the full volume at the front of the list and pops
it; popping an empty list is Python's `IndexError`, hence `none`.  Returns the
remaining volume list, the trade list and the final `lvl`. -/
def sweepLoop (ts : ℤ) (nnbbo tick_adj : ℚ) :
    ℕ → ℕ → List ℤ → List Trade → Option (List ℤ × List Trade × ℕ)
  | lvl, 0, vol, tr => some (vol, tr, lvl)
  | lvl, count + 1, vol, tr =>
    match vol with
    | [] => none
    | v :: rest =>
      sweepLoop ts nnbbo tick_adj (lvl + 1) count rest
        (tr ++ [⟨ts, nnbbo + (lvl : ℚ) * tick_adj, v, OrderType.market_order⟩])

/-- `OrderBookSnapshot.process_sweep_order`: sweep the opposite side from the
best through level `order.level` inclusive; afterwards the swept side's best is
`nnbbo + lvl * tick_adj` and the other side's best is `nnbbo + (lvl-1) * tick_adj`
(with `lvl = order.level + 1` on success). -/
def OrderBookSnapshot.process_sweep_order (s : OrderBookSnapshot) (o : Order) :
    Option OrderBookSnapshot :=
  match o.side with
  | .buy =>
    (sweepLoop s.timestamp s.nbo s.tick 0 (o.level + 1) s.ask_vol s.trades).map
      (fun r =>
        { s with
            ask_vol := r.1
            trades := r.2.1
            nbo := s.nbo + (r.2.2 : ℚ) * s.tick
            nbb := s.nbo + ((r.2.2 : ℚ) - 1) * s.tick })
  | .sell =>
    (sweepLoop s.timestamp s.nbb (-s.tick) 0 (o.level + 1) s.bid_vol s.trades).map
      (fun r =>
        { s with
            bid_vol := r.1
            trades := r.2.1
            nbb := s.nbb + (r.2.2 : ℚ) * (-s.tick)
            nbo := s.nbb + ((r.2.2 : ℚ) - 1) * (-s.tick) })

/-- Core of `process_limit_order` on the side-selected volume list and best
price (`tick_adj` is `+tick` for BUY, `-tick` for SELL); `spread` is the
snapshot's stored spread field. -/
def limitCore (spread : ℤ) (tick_adj : ℚ) (level : ℕ) (qty : ℕ) (book_vol : List ℤ)
    (nbbo : ℚ) : Option (List ℤ × ℚ) :=
  if spread ≤ (level : ℤ) then
    -- order level does not change the current nbbo
    match book_vol[((level : ℤ) - spread).toNat]? with
    | none => none
    | some v =>
      if (level : ℤ) = spread ∧
          (book_vol.set ((level : ℤ) - spread).toNat (v + (qty : ℤ)))[0]? = some 0 then
        some ((book_vol.set ((level : ℤ) - spread).toNat (v + (qty : ℤ))).tail, nbbo - tick_adj)
      else
        some (book_vol.set ((level : ℤ) - spread).toNat (v + (qty : ℤ)), nbbo)
  else
    -- order level changes the current nbbo
    match List.replicate (spread - (level : ℤ)).toNat 0 ++ book_vol with
    | [] => none
    | _ :: rest =>
      some ((qty : ℤ) :: rest, nbbo + ((spread : ℚ) - (level : ℚ)) * tick_adj)

/-- `OrderBookSnapshot.process_limit_order`: dispatch `book_map` on the order
side and write back the selected volume list and best price. -/
def OrderBookSnapshot.process_limit_order (s : OrderBookSnapshot) (o : Order) :
    Option OrderBookSnapshot :=
  match o.side with
  | .buy =>
    (limitCore s.spread s.tick o.level o.qty s.bid_vol s.nbb).map
      (fun r => { s with bid_vol := r.1, nbb := r.2 })
  | .sell =>
    (limitCore s.spread (-s.tick) o.level o.qty s.ask_vol s.nbo).map
      (fun r => { s with ask_vol := r.1, nbo := r.2 })

/-- The right-padding step at the end of `update`:
`vol += [0] * (book_depth - len(vol))`. -/
def padVol (vol : List ℤ) (depth : ℕ) : List ℤ :=
  vol ++ List.replicate (depth - vol.length) 0

/-- `OrderBookSnapshot.update`: deep-copy the snapshot, stamp it with the
order's timestamp, dispatch on the order type (market orders take the active
`process_sweep_order` path; a midpoint order matches no case and leaves the
book untouched), then right-pad both volume lists with zeros up to
`book_depth`. -/
def OrderBookSnapshot.update (s : OrderBookSnapshot) (o : Order) :
    Option OrderBookSnapshot :=
  let s1 : OrderBookSnapshot := { s with timestamp := o.timestamp }
  let s2 : Option OrderBookSnapshot :=
    match o.order_type with
    | .cancel_order => s1.process_cancel_order o
    | .market_order => s1.process_sweep_order o
    | .limit_order => s1.process_limit_order o
    | .midpoint_order => some s1
  s2.map (fun t =>
    { t with
        bid_vol := padVol t.bid_vol t.book_depth
        ask_vol := padVol t.ask_vol t.book_depth })

/-- Apply a sequence of orders via `update`; any raised `IndexError` aborts the
whole sequence. -/
def applyOrders (s : OrderBookSnapshot) : List Order → Option OrderBookSnapshot
  | [] => some s
  | o :: rest =>
    match s.update o with
    | none => none
    | some s' => applyOrders s' rest

/-- The first snapshot of a simulation, as built by
`OrderBookHistory.initiate_orderbook`: `depth` unit-volume levels per side. -/
def initialSnapshot (start_time : ℤ) (tick start_bid start_ask : ℚ) (max_depth : ℕ) :
    OrderBookSnapshot :=
  OrderBookSnapshot.init start_time tick start_bid start_ask
    (List.replicate max_depth 1) (List.replicate max_depth 1) max_depth

/-- `OrderBookHistory` state from `lob.py`. -/
structure OrderBookHistory where
  start_time : ℤ
  end_time : ℤ
  tick : ℚ
  current_nbb : ℚ
  current_nbo : ℚ
  book_depth : ℕ
  snapshots : List OrderBookSnapshot
deriving DecidableEq, Repr

/-- `OrderBookHistory.__init__`. -/
def OrderBookHistory.init (start_time : ℤ) (tick nbb nbo : ℚ) (book_depth : ℕ) :
    OrderBookHistory :=
  { start_time := start_time
    end_time := start_time
    tick := tick
    current_nbb := nbb
    current_nbo := nbo
    book_depth := book_depth
    snapshots := [] }

/-- Python's `bisect.bisect_left` on a list of integer keys, modelled by its
documented behaviour on sorted input: the leftmost insertion point, which on a
sorted list is the number of elements strictly below the key.  Both repository
call sites (`add_snapshot`, `get_snapshot`) pass the timestamp-sorted snapshot
list, comparing via `OrderBookSnapshot.__lt__`, which compares timestamps. -/
def bisectLeft (keys : List ℤ) (x : ℤ) : ℕ :=
  keys.countP (fun k => k < x)

/-- The timestamp key sequence of a history, as `bisect` sees it through
`OrderBookSnapshot.__lt__`. -/
def tsList (h : OrderBookHistory) : List ℤ :=
  h.snapshots.map (fun s => s.timestamp)

/-- `OrderBookHistory.add_snapshot`: append if `end_time <= timestamp`
(updating `end_time` and the cached best prices), otherwise insert at the
`bisect_left` position (`list.insert(index, x)` places `x` before the element
currently at `index`, i.e. between the first `index` elements and the rest). -/
def OrderBookHistory.add_snapshot (h : OrderBookHistory) (snap : OrderBookSnapshot) :
    OrderBookHistory :=
  if h.end_time ≤ snap.timestamp then
    { h with
        end_time := snap.timestamp
        snapshots := h.snapshots ++ [snap]
        current_nbb := snap.nbb
        current_nbo := snap.nbo }
  else
    let index := bisectLeft (tsList h) snap.timestamp
    { h with snapshots := h.snapshots.take index ++ snap :: h.snapshots.drop index }

/-- Build a history by feeding a list of snapshots to `add_snapshot`. -/
def buildHistory (h : OrderBookHistory) : List OrderBookSnapshot → OrderBookHistory
  | [] => h
  | s :: rest => buildHistory (h.add_snapshot s) rest

/-- `OrderBookHistory.get_snapshot(timestamp)`: returns the integer
`bisect.bisect_left(self.snapshots, timestamp) - 1` (an index, not a
snapshot). -/
def OrderBookHistory.get_snapshot (h : OrderBookHistory) (t : ℤ) : ℤ :=
  (bisectLeft (tsList h) t : ℤ) - 1

/-- The heap-level view of `OrderBookSnapshot.update` used for the frame
property: Python objects live in a store, `deepcopy` allocates a fresh,
fully independent cell at the end of the store, and all the mutations
performed by the `process_*` methods land in that fresh cell.  The call
returns the new store and a reference to the new snapshot. -/
def updateAt (heap : List OrderBookSnapshot) (r : ℕ) (o : Order) :
    Option (List OrderBookSnapshot × ℕ) :=
  match heap[r]? with
  | none => none
  | some s =>
    match s.update o with
    | none => none
    | some s' => some (heap ++ [s'], heap.length)

/-- The rate parameters of `Market` (`market.py`), read from `Config`. -/
structure MarketParams where
  market_order_rate : ℚ
  limit_order_rate : ℚ
  cancel_order_rate : ℚ
  market_volume_rate : ℚ
  limit_volume_rate : ℚ
  cancel_volume_rate : ℚ
  timestep_ms : ℤ
deriving DecidableEq, Repr

/-- The default `Config` rate parameters from `configuration.py`. -/
def defaultMarketParams : MarketParams :=
  { market_order_rate := 2
    limit_order_rate := 5
    cancel_order_rate := 1
    market_volume_rate := 10
    limit_volume_rate := 10
    cancel_volume_rate := 3
    timestep_ms := 100 }

/-- Length of the limit-order block in `get_next_order`:
`depth + spread - 1` entries (empty when that is not positive). -/
def limitCount (depth : ℕ) (spread : ℤ) : ℕ :=
  ((depth : ℤ) + spread - 1).toNat

/-- The `ord_type` list of `get_next_order`: one market entry, then
`depth + spread - 1` limit entries, then `depth` cancel entries. -/
def ordList (depth : ℕ) (spread : ℤ) : List OrderType :=
  OrderType.market_order ::
    (List.replicate (limitCount depth spread) OrderType.limit_order ++
      List.replicate depth OrderType.cancel_order)

/-- The `lvl` list of `get_next_order`: level 0 for the market entry, levels
`1 .. depth+spread-1` for limit entries, levels `0 .. depth-1` for cancels. -/
def lvlList (depth : ℕ) (spread : ℤ) : List ℕ :=
  0 :: (List.range' 1 (limitCount depth spread) ++ List.range depth)

/-- The unnormalized `prob` weight list of `get_next_order`. -/
def probList (m : MarketParams) (depth : ℕ) (spread : ℤ) : List ℚ :=
  m.market_order_rate ::
    ((List.range' 1 (limitCount depth spread)).map (fun i => m.limit_order_rate / (i : ℚ)) ++
      (List.range depth).map
        (fun i => m.cancel_order_rate * ((depth : ℚ) - (i : ℚ) - 1) / (depth : ℚ)))

/-- `total_rate = np.sum(prob)` for the given snapshot. -/
def totalRate (m : MarketParams) (s : OrderBookSnapshot) : ℚ :=
  (probList m s.book_depth s.spread).sum

/-- The realized random draws of one `Market.get_next_order` call:
`side` is the `random.choice([BUY, SELL], p=...)` outcome, `idx` the
`random.choice(range(len(prob)), p=prob)` outcome, `qtyDraw` the
`exp_dist(rate, min_val=0)` outcome (a nonnegative integer), and `gapDraw`
the value `int(-timestep_ms * log(u) / total_rate)` for the uniform draw
`u ∈ [1e-3, 1)` — a nonnegative integer, equal to 0 whenever
`-timestep_ms * log(u) / total_rate < 1`. -/
structure Draws where
  side : Side
  idx : ℕ
  qtyDraw : ℕ
  gapDraw : ℕ
deriving DecidableEq, Repr

/-- `Market.get_next_order`: look the drawn index up in the parallel
`ord_type`/`lvl` lists and stamp the order with
`snapshot.timestamp + time_till_next`. -/
def Market.get_next_order (_m : MarketParams) (s : OrderBookSnapshot) (d : Draws) :
    Option Order :=
  match (ordList s.book_depth s.spread)[d.idx]?, (lvlList s.book_depth s.spread)[d.idx]? with
  | some ot, some lv =>
    some
      { timestamp := s.timestamp + (d.gapDraw : ℤ)
        order_type := ot
        side := d.side
        level := lv
        qty := d.qtyDraw }
  | _, _ => none

/-- The nonnegativity-plus-depth invariant that survives arbitrary order
sequences (the amended form of the book invariant). -/
def VolInvariant (s : OrderBookSnapshot) : Prop :=
  s.book_depth ≤ s.bid_vol.length ∧ s.book_depth ≤ s.ask_vol.length ∧
    (∀ v ∈ s.bid_vol, 0 ≤ v) ∧ (∀ v ∈ s.ask_vol, 0 ≤ v)

/-- Volume list of the side a limit/cancel order acts on. -/
def sideVol (s : OrderBookSnapshot) : Side → List ℤ
  | .buy => s.bid_vol
  | .sell => s.ask_vol

/-- Best price of the side a limit/cancel order acts on. -/
def sideBest (s : OrderBookSnapshot) : Side → ℚ
  | .buy => s.nbb
  | .sell => s.nbo

/-- Volume list of the opposite side, the one a market order consumes. -/
def oppVol (s : OrderBookSnapshot) : Side → List ℤ
  | .buy => s.ask_vol
  | .sell => s.bid_vol

/-- Best price of the opposite side, the one a market order consumes. -/
def oppBest (s : OrderBookSnapshot) : Side → ℚ
  | .buy => s.nbo
  | .sell => s.nbb

/-- Signed tick step that moves the consumed side's best price away from the
midpoint (`tick_adj` of `process_sweep_order`). -/
def oppAdj (s : OrderBookSnapshot) : Side → ℚ
  | .buy => s.tick
  | .sell => -s.tick

/-- Signed tick step that moves the acted-on side's best toward the midpoint
(`tick_adj` of `process_limit_order`). -/
def towardAdj (s : OrderBookSnapshot) : Side → ℚ
  | .buy => s.tick
  | .sell => -s.tick

/-- Signed tick step that moves the acted-on side's best away from the
midpoint (`tick_adj` of `process_cancel_order`). -/
def awayAdj (s : OrderBookSnapshot) : Side → ℚ
  | .buy => -s.tick
  | .sell => s.tick

/-- The simulation start book under the default `Config`:
`tick=0.01, best_bid=100.00, best_ask=100.01, depth=5`, unit volumes. -/
def defaultBook : OrderBookSnapshot := initialSnapshot 0 (1 / 100) 100 (10001 / 100) 5

/-- Fallback order value for `Option.getD` on concrete computations. -/
def defaultOrder : Order := ⟨0, OrderType.market_order, Side.buy, 0, 0⟩

/-- Concrete order for the C1 counterexample: a Buy limit at level 0. -/
def c1CxOrder : Order := ⟨1, OrderType.limit_order, Side.buy, 0, 10⟩

/-- The book after `c1CxOrder`. -/
def c1CxSnap : OrderBookSnapshot := (defaultBook.update c1CxOrder).getD defaultBook

/-- Concrete order for the C1 witness: a Buy market order at level 0. -/
def c1WitOrder : Order := ⟨1, OrderType.market_order, Side.buy, 0, 7⟩

/-- The book after `c1WitOrder`. -/
def c1WitSnap : OrderBookSnapshot := (applyOrders defaultBook [c1WitOrder]).getD defaultBook

/-- Concrete order for the C2 witness: a Sell market order sweeping two bid levels. -/
def c2WitOrder : Order := ⟨2, OrderType.market_order, Side.sell, 1, 3⟩

/-- Concrete order for the C3 witness: a Buy limit one tick inside the spread. -/
def c3WitOrder : Order := ⟨1, OrderType.limit_order, Side.buy, 0, 7⟩

/-- Concrete order for the C4 counterexample: cancel the whole best-bid volume. -/
def c4CxOrder : Order := ⟨1, OrderType.cancel_order, Side.buy, 0, 1⟩

/-- The book after `c4CxOrder`. -/
def c4CxSnap : OrderBookSnapshot := (defaultBook.update c4CxOrder).getD defaultBook

/-- The Buy limit order of the C5 scenario (`level=1, qty=10`). -/
def c5Order : Order := ⟨1, OrderType.limit_order, Side.buy, 1, 10⟩

/-- The book after `c5Order`. -/
def c5Snap : OrderBookSnapshot := (defaultBook.update c5Order).getD defaultBook

/-- Concrete order for the C8 witness: cancel one unit at the best bid. -/
def c8WitOrder : Order := ⟨3, OrderType.cancel_order, Side.buy, 0, 1⟩

/-- A history reached by feeding `prev` to `add_snapshot` starting from a fresh
`OrderBookHistory`. -/
def histOf (st : ℤ) (tick nbb nbo : ℚ) (depth : ℕ) (prev : List OrderBookSnapshot) :
    OrderBookHistory :=
  buildHistory (OrderBookHistory.init st tick nbb nbo depth) prev

/-- Concrete history for the C6 counterexample: one snapshot at timestamp 10. -/
def c6CxHist : OrderBookHistory :=
  histOf 0 (1 / 100) 100 (10001 / 100) 5 [initialSnapshot 10 (1 / 100) 100 (10001 / 100) 5]

/-- Internal invariant of `OrderBookHistory`: the stored timestamps are sorted
and all bounded by `end_time`. -/
def HistInv (h : OrderBookHistory) : Prop :=
  List.Sorted (· ≤ ·) (tsList h) ∧ ∀ t ∈ tsList h, t ≤ h.end_time

/-- Draws for the C10 counterexample: the drawn uniform `u = 9/10` makes
`int(-timestep_ms * log(u) / total_rate) = 0`, so `gapDraw = 0`. -/
def c10CxDraw : Draws := ⟨Side.sell, 1, 4, 0⟩

/-- The order generated from `c10CxDraw`. -/
def c10CxOrder : Order :=
  (Market.get_next_order defaultMarketParams defaultBook c10CxDraw).getD defaultOrder

/-- Draws for the C10 witness. -/
def c10WitDraw : Draws := ⟨Side.buy, 0, 5, 3⟩

/-- The order generated from `c10WitDraw`. -/
def c10WitOrder : Order :=
  (Market.get_next_order defaultMarketParams defaultBook c10WitDraw).getD defaultOrder

/-- Two in-order snapshots used to seed history examples. -/
def c7Prev : List OrderBookSnapshot :=
  [initialSnapshot 10 (1 / 100) 100 (10001 / 100) 5,
   initialSnapshot 20 (1 / 100) 100 (10001 / 100) 5]

/-- An out-of-order snapshot (timestamp 15) inserted into `c7Prev`. -/
def c7Snap : OrderBookSnapshot := initialSnapshot 15 (1 / 100) 100 (10001 / 100) 5

/-! ## Theorems -/

/-- Full characterization of the sweep loop: it succeeds exactly when the list
holds at least `n` levels, in which case it pops the first `n` levels, records
one trade per popped level (price advancing one `tick_adj` per level, quantity
the popped level's full volume) and advances `lvl` by `n`. -/
lemma sweepLoop_spec (ts : ℤ) (nnbbo adj : ℚ) :
    ∀ (n lvl : ℕ) (vol : List ℤ) (tr : List Trade),
    sweepLoop ts nnbbo adj lvl n vol tr =
      if n ≤ vol.length then
        some (vol.drop n,
          tr ++ (List.range n).map
            (fun i => ⟨ts, nnbbo + ((lvl + i : ℕ) : ℚ) * adj, vol.getD i 0,
              OrderType.market_order⟩),
          lvl + n)
      else none := by
  intro n
  induction n with
  | zero => intro lvl vol tr; simp [sweepLoop]
  | succ n ih =>
    intro lvl vol tr
    cases vol with
    | nil => simp [sweepLoop]
    | cons v rest =>
      rw [sweepLoop, ih]
      by_cases h : n ≤ rest.length
      · rw [if_pos h, if_pos (by simpa using Nat.succ_le_succ h)]
        simp only [List.drop_succ_cons, List.range_succ_eq_map, List.map_cons,
          List.map_map, Option.some.injEq, Prod.mk.injEq]
        refine ⟨trivial, ?_, by omega⟩
        rw [List.append_assoc]
        simp only [List.singleton_append, List.cons_append]
        refine congrArg₂ _ rfl (congrArg₂ _ ?_ ?_)
        · simp
        · refine List.map_congr_left (fun i _ => ?_)
          simp only [Function.comp_apply, List.getD_cons_succ, Trade.mk.injEq,
            and_true, true_and]
          have hix : lvl + 1 + i = lvl + i.succ := by omega
          rw [hix]
      · rw [if_neg h, if_neg (by simpa using fun hh => h (Nat.le_of_succ_le_succ hh))]

/-- Zero padding never changes a list's sum. -/
lemma padVol_sum (vol : List ℤ) (depth : ℕ) : (padVol vol depth).sum = vol.sum := by
  simp [padVol]

/-- C2: a market (sweep) order whose target level fits in the opposite side's
book consumes 100% of the volume at each opposite-side level from the best
through `order.level` inclusive, emits exactly one trade per consumed level at
that level's price with the level's full pre-sweep volume, removes in total the
sum of the pre-sweep volumes at levels `0..order.level`, advances the consumed
side's best price by one tick per consumed level, and is independent of the
order's `qty` field. -/
theorem c2_sweep_depth_driven (s : OrderBookSnapshot) (o : Order)
    (hot : o.order_type = OrderType.market_order)
    (hlen : o.level + 1 ≤ (oppVol s o.side).length) :
    ∃ s', s.update o = some s' ∧
      oppVol s' o.side = padVol ((oppVol s o.side).drop (o.level + 1)) s.book_depth ∧
      s'.trades = s.trades ++ (List.range (o.level + 1)).map
        (fun i => ⟨o.timestamp, oppBest s o.side + (i : ℚ) * oppAdj s o.side,
          (oppVol s o.side).getD i 0, OrderType.market_order⟩) ∧
      (oppVol s o.side).sum - (oppVol s' o.side).sum =
        ((oppVol s o.side).take (o.level + 1)).sum ∧
      oppBest s' o.side = oppBest s o.side + ((o.level + 1 : ℕ) : ℚ) * oppAdj s o.side ∧
      ∀ q, s.update { o with qty := q } = some s' := by
  have hq : ∀ q, s.update { o with qty := q } = s.update o := by
    intro q
    simp only [OrderBookSnapshot.update, OrderBookSnapshot.process_sweep_order, hot]
  have hsum : ∀ n (l : List ℤ), l.sum - (l.drop n).sum = (l.take n).sum := by
    intro n l
    have := List.sum_take_add_sum_drop l n
    omega
  cases hside : o.side with
  | buy =>
    have hlen' : o.level + 1 ≤ s.ask_vol.length := by
      simpa [oppVol, hside] using hlen
    have hupd : s.update o = some
        { s with
            timestamp := o.timestamp
            bid_vol := padVol s.bid_vol s.book_depth
            ask_vol := padVol (s.ask_vol.drop (o.level + 1)) s.book_depth
            nbo := s.nbo + ((o.level + 1 : ℕ) : ℚ) * s.tick
            nbb := s.nbo + (((o.level + 1 : ℕ) : ℚ) - 1) * s.tick
            trades := s.trades ++ (List.range (o.level + 1)).map
              (fun i => ⟨o.timestamp, s.nbo + (i : ℚ) * s.tick, s.ask_vol.getD i 0,
                OrderType.market_order⟩) } := by
      simp only [OrderBookSnapshot.update, OrderBookSnapshot.process_sweep_order, hot,
        hside, sweepLoop_spec, if_pos hlen', Option.map_some]
      simp
    simp only [hside] at hq
    refine ⟨_, hupd, ?_, ?_, ?_, ?_, ?_⟩
    · simp [oppVol]
    · simp [oppBest, oppAdj, oppVol, hside]
    · simp only [oppVol, padVol_sum]
      exact hsum _ _
    · simp [oppBest, oppAdj]
    · intro q
      rw [hq]
      exact hupd
  | sell =>
    have hlen' : o.level + 1 ≤ s.bid_vol.length := by
      simpa [oppVol, hside] using hlen
    have hupd : s.update o = some
        { s with
            timestamp := o.timestamp
            ask_vol := padVol s.ask_vol s.book_depth
            bid_vol := padVol (s.bid_vol.drop (o.level + 1)) s.book_depth
            nbb := s.nbb + ((o.level + 1 : ℕ) : ℚ) * (-s.tick)
            nbo := s.nbb + (((o.level + 1 : ℕ) : ℚ) - 1) * (-s.tick)
            trades := s.trades ++ (List.range (o.level + 1)).map
              (fun i => ⟨o.timestamp, s.nbb + (i : ℚ) * (-s.tick), s.bid_vol.getD i 0,
                OrderType.market_order⟩) } := by
      simp only [OrderBookSnapshot.update, OrderBookSnapshot.process_sweep_order, hot,
        hside, sweepLoop_spec, if_pos hlen', Option.map_some]
      simp
    simp only [hside] at hq
    refine ⟨_, hupd, ?_, ?_, ?_, ?_, ?_⟩
    · simp [oppVol]
    · simp [oppBest, oppAdj, oppVol, hside]
    · simp only [oppVol, padVol_sum]
      exact hsum _ _
    · simp [oppBest, oppAdj]
    · intro q
      rw [hq]
      exact hupd


/-- Padding preserves the depth lower bound. -/
lemma padVol_length (vol : List ℤ) (depth : ℕ) : depth ≤ (padVol vol depth).length := by
  simp only [padVol, List.length_append, List.length_replicate]
  omega

/-- Padding preserves entrywise nonnegativity. -/
lemma padVol_nonneg (vol : List ℤ) (depth : ℕ) (h : ∀ v ∈ vol, 0 ≤ v) :
    ∀ v ∈ padVol vol depth, 0 ≤ v := by
  intro v hv
  rcases List.mem_append.mp hv with h1 | h1
  · exact h v h1
  · rw [List.eq_of_mem_replicate h1]

/-- A cancel never drives any entry of the touched volume list negative. -/
lemma cancelCore_nonneg {adj : ℚ} {level qty : ℕ} {vol : List ℤ} {nbbo : ℚ}
    {r : List ℤ × ℚ} (h : cancelCore adj level qty vol nbbo = some r)
    (hvol : ∀ v ∈ vol, 0 ≤ v) : ∀ v ∈ r.1, 0 ≤ v := by
  unfold cancelCore at h
  cases hg : vol[level]? with
  | none => rw [hg] at h; cases h
  | some w =>
    rw [hg] at h
    simp only at h
    have hset : ∀ v ∈ vol.set level (w - min (qty : ℤ) w), 0 ≤ v := by
      intro v hv
      rcases List.mem_or_eq_of_mem_set hv with h1 | h1
      · exact hvol v h1
      · omega
    split at h
    · cases h
      intro v hv
      exact hset v ((List.tail_sublist _).subset hv)
    · cases h
      exact hset

/-- A limit order keeps the touched volume list entrywise nonnegative. -/
lemma limitCore_nonneg {spread : ℤ} {adj : ℚ} {level qty : ℕ} {vol : List ℤ} {nbbo : ℚ}
    {r : List ℤ × ℚ} (h : limitCore spread adj level qty vol nbbo = some r)
    (hvol : ∀ v ∈ vol, 0 ≤ v) : ∀ v ∈ r.1, 0 ≤ v := by
  unfold limitCore at h
  split at h
  · cases hg : vol[((level : ℤ) - spread).toNat]? with
    | none => rw [hg] at h; cases h
    | some w =>
      rw [hg] at h
      simp only at h
      have hset : ∀ v ∈ vol.set ((level : ℤ) - spread).toNat (w + (qty : ℤ)), 0 ≤ v := by
        intro v hv
        rcases List.mem_or_eq_of_mem_set hv with h1 | h1
        · exact hvol v h1
        · have hw : w ∈ vol := by
            obtain ⟨hn, rfl⟩ := List.getElem?_eq_some.mp hg
            exact List.getElem_mem hn
          have := hvol w hw
          have := Int.natCast_nonneg qty
          omega
      split at h
      · cases h
        intro v hv
        exact hset v ((List.tail_sublist _).subset hv)
      · cases h
        exact hset
  · cases hrep : List.replicate (spread - (level : ℤ)).toNat (0 : ℤ) ++ vol with
    | nil => rw [hrep] at h; cases h
    | cons a rest =>
      rw [hrep] at h
      cases h
      intro v hv
      rcases List.mem_cons.mp hv with h1 | h1
      · rw [h1]; exact Int.natCast_nonneg qty
      · have hmem : v ∈ List.replicate (spread - (level : ℤ)).toNat (0 : ℤ) ++ vol := by
          rw [hrep]; exact List.mem_cons_of_mem a h1
        rcases List.mem_append.mp hmem with h2 | h2
        · rw [List.eq_of_mem_replicate h2]
        · exact hvol v h2

/-- `process_cancel_order` preserves `book_depth`, `spread`, `tick`,
`timestamp` and entrywise nonnegativity of both volume lists. -/
lemma process_cancel_fields {s : OrderBookSnapshot} {o : Order} {t : OrderBookSnapshot}
    (h : s.process_cancel_order o = some t)
    (hb : ∀ v ∈ s.bid_vol, 0 ≤ v) (ha : ∀ v ∈ s.ask_vol, 0 ≤ v) :
    t.book_depth = s.book_depth ∧ t.spread = s.spread ∧ t.tick = s.tick ∧
      t.timestamp = s.timestamp ∧ (∀ v ∈ t.bid_vol, 0 ≤ v) ∧ ∀ v ∈ t.ask_vol, 0 ≤ v := by
  unfold OrderBookSnapshot.process_cancel_order at h
  cases hside : o.side with
  | buy =>
    rw [hside] at h
    obtain ⟨r, hr, rfl⟩ := Option.map_eq_some'.mp h
    exact ⟨rfl, rfl, rfl, rfl, cancelCore_nonneg hr hb, ha⟩
  | sell =>
    rw [hside] at h
    obtain ⟨r, hr, rfl⟩ := Option.map_eq_some'.mp h
    exact ⟨rfl, rfl, rfl, rfl, hb, cancelCore_nonneg hr ha⟩

/-- `process_limit_order` preserves `book_depth`, `spread`, `tick`,
`timestamp` and entrywise nonnegativity of both volume lists. -/
lemma process_limit_fields {s : OrderBookSnapshot} {o : Order} {t : OrderBookSnapshot}
    (h : s.process_limit_order o = some t)
    (hb : ∀ v ∈ s.bid_vol, 0 ≤ v) (ha : ∀ v ∈ s.ask_vol, 0 ≤ v) :
    t.book_depth = s.book_depth ∧ t.spread = s.spread ∧ t.tick = s.tick ∧
      t.timestamp = s.timestamp ∧ (∀ v ∈ t.bid_vol, 0 ≤ v) ∧ ∀ v ∈ t.ask_vol, 0 ≤ v := by
  unfold OrderBookSnapshot.process_limit_order at h
  cases hside : o.side with
  | buy =>
    rw [hside] at h
    obtain ⟨r, hr, rfl⟩ := Option.map_eq_some'.mp h
    exact ⟨rfl, rfl, rfl, rfl, limitCore_nonneg hr hb, ha⟩
  | sell =>
    rw [hside] at h
    obtain ⟨r, hr, rfl⟩ := Option.map_eq_some'.mp h
    exact ⟨rfl, rfl, rfl, rfl, hb, limitCore_nonneg hr ha⟩

/-- `process_sweep_order` preserves `book_depth`, `spread`, `tick`,
`timestamp` and entrywise nonnegativity of both volume lists. -/
lemma process_sweep_fields {s : OrderBookSnapshot} {o : Order} {t : OrderBookSnapshot}
    (h : s.process_sweep_order o = some t)
    (hb : ∀ v ∈ s.bid_vol, 0 ≤ v) (ha : ∀ v ∈ s.ask_vol, 0 ≤ v) :
    t.book_depth = s.book_depth ∧ t.spread = s.spread ∧ t.tick = s.tick ∧
      t.timestamp = s.timestamp ∧ (∀ v ∈ t.bid_vol, 0 ≤ v) ∧ ∀ v ∈ t.ask_vol, 0 ≤ v := by
  unfold OrderBookSnapshot.process_sweep_order at h
  cases hside : o.side with
  | buy =>
    rw [hside] at h
    obtain ⟨r, hr, rfl⟩ := Option.map_eq_some'.mp h
    rw [sweepLoop_spec] at hr
    split at hr
    · cases hr
      refine ⟨rfl, rfl, rfl, rfl, hb, ?_⟩
      intro v hv
      exact ha v ((List.drop_sublist _ _).subset hv)
    · cases hr
  | sell =>
    rw [hside] at h
    obtain ⟨r, hr, rfl⟩ := Option.map_eq_some'.mp h
    rw [sweepLoop_spec] at hr
    split at hr
    · cases hr
      refine ⟨rfl, rfl, rfl, rfl, ?_, ha⟩
      intro v hv
      exact hb v ((List.drop_sublist _ _).subset hv)
    · cases hr

/-- One `update` step: the new snapshot keeps `book_depth`, its volume lists
are entrywise nonnegative and at least `book_depth` long, and the `spread`
and `tick` fields are carried over unchanged from the input. -/
lemma update_step {s : OrderBookSnapshot} {o : Order} {s' : OrderBookSnapshot}
    (hb : ∀ v ∈ s.bid_vol, 0 ≤ v) (ha : ∀ v ∈ s.ask_vol, 0 ≤ v)
    (h : s.update o = some s') :
    s'.book_depth = s.book_depth ∧ (∀ v ∈ s'.bid_vol, 0 ≤ v) ∧ (∀ v ∈ s'.ask_vol, 0 ≤ v) ∧
      s'.book_depth ≤ s'.bid_vol.length ∧ s'.book_depth ≤ s'.ask_vol.length ∧
      s'.spread = s.spread ∧ s'.tick = s.tick := by
  unfold OrderBookSnapshot.update at h
  obtain ⟨t, ht, rfl⟩ := Option.map_eq_some'.mp h
  have hfields : t.book_depth = s.book_depth ∧ t.spread = s.spread ∧ t.tick = s.tick ∧
      (∀ v ∈ t.bid_vol, 0 ≤ v) ∧ ∀ v ∈ t.ask_vol, 0 ≤ v := by
    cases hot : o.order_type with
    | cancel_order =>
      rw [hot] at ht
      obtain ⟨h1, h2, h3, _, h5, h6⟩ := process_cancel_fields ht hb ha
      exact ⟨h1, h2, h3, h5, h6⟩
    | market_order =>
      rw [hot] at ht
      obtain ⟨h1, h2, h3, _, h5, h6⟩ := process_sweep_fields ht hb ha
      exact ⟨h1, h2, h3, h5, h6⟩
    | limit_order =>
      rw [hot] at ht
      obtain ⟨h1, h2, h3, _, h5, h6⟩ := process_limit_fields ht hb ha
      exact ⟨h1, h2, h3, h5, h6⟩
    | midpoint_order =>
      rw [hot] at ht
      cases ht
      exact ⟨rfl, rfl, rfl, hb, ha⟩
  obtain ⟨h1, h2, h3, h4, h5⟩ := hfields
  exact ⟨h1, padVol_nonneg _ _ h4, padVol_nonneg _ _ h5, padVol_length _ _,
    padVol_length _ _, h2, h3⟩

/-- The book invariant that survives arbitrary order sequences, over a whole
`applyOrders` run. -/
lemma applyOrders_invariant :
    ∀ (orders : List Order) (s s' : OrderBookSnapshot),
      (∀ v ∈ s.bid_vol, 0 ≤ v) → (∀ v ∈ s.ask_vol, 0 ≤ v) →
      s.book_depth ≤ s.bid_vol.length → s.book_depth ≤ s.ask_vol.length →
      applyOrders s orders = some s' →
      s'.book_depth = s.book_depth ∧ VolInvariant s'
  | [], s, s', hb, ha, hlb, hla, h => by
    cases h
    exact ⟨rfl, hlb, hla, hb, ha⟩
  | o :: rest, s, s', hb, ha, hlb, hla, h => by
    unfold applyOrders at h
    cases hu : s.update o with
    | none => rw [hu] at h; cases h
    | some s1 =>
      rw [hu] at h
      obtain ⟨hd, hb1, ha1, hlb1, hla1, _, _⟩ := update_step hb ha hu
      obtain ⟨hd', hinv⟩ := applyOrders_invariant rest s1 s' hb1 ha1 hlb1 hla1 h
      exact ⟨hd'.trans hd, hinv⟩

/-- C1 (amended): every snapshot reachable from the initial book keeps
`book_depth`, both volume lists have length at least `book_depth`, and every
volume entry is nonnegative.  (The claimed `best_ask > best_bid` and
`spread = round((best_ask-best_bid)/tick) ≥ 1` conjuncts fail on reachable
snapshots; see the counterexample.) -/
theorem c1_reachable_invariant (t0 : ℤ) (tick nbb nbo : ℚ) (depth : ℕ)
    (orders : List Order) (s' : OrderBookSnapshot)
    (h : applyOrders (initialSnapshot t0 tick nbb nbo depth) orders = some s') :
    s'.book_depth = depth ∧ VolInvariant s' := by
  refine applyOrders_invariant orders _ s' ?_ ?_ ?_ ?_ h <;>
    simp [initialSnapshot, OrderBookSnapshot.init]

/-- C1 counterexample: from the default initial book, a single Buy limit order
at level 0 yields a reachable snapshot whose best bid *equals* its best ask
(so `best_ask > best_bid` fails), whose stored `spread` field is still 1, and
whose recomputed `round((best_ask-best_bid)/tick)` is 0, not ≥ 1. -/
theorem c1_counterexample :
    applyOrders defaultBook [c1CxOrder] = some c1CxSnap ∧
    c1CxSnap.nbb = c1CxSnap.nbo ∧ ¬ c1CxSnap.nbb < c1CxSnap.nbo ∧
    c1CxSnap.spread = 1 ∧ pyInt ((c1CxSnap.nbo - c1CxSnap.nbb) / c1CxSnap.tick) = 0 := by
  refine ⟨rfl, by decide, by decide, by decide, by decide⟩

/-- C1 witness: the invariant theorem applied to a concrete one-order run. -/
theorem c1_witness :
    applyOrders defaultBook [c1WitOrder] = some c1WitSnap ∧
      (c1WitSnap.book_depth = 5 ∧ VolInvariant c1WitSnap) :=
  ⟨rfl, c1_reachable_invariant 0 (1 / 100) 100 (10001 / 100) 5 [c1WitOrder] c1WitSnap rfl⟩

/-- C2 witness: the sweep theorem applied to a concrete Sell market order
hitting the default book. -/
theorem c2_witness :
    c2WitOrder.order_type = OrderType.market_order ∧
    c2WitOrder.level + 1 ≤ (oppVol defaultBook c2WitOrder.side).length ∧
    ∃ s', defaultBook.update c2WitOrder = some s' ∧
      oppVol s' c2WitOrder.side =
        padVol ((oppVol defaultBook c2WitOrder.side).drop (c2WitOrder.level + 1))
          defaultBook.book_depth ∧
      s'.trades = defaultBook.trades ++ (List.range (c2WitOrder.level + 1)).map
        (fun i => ⟨c2WitOrder.timestamp,
          oppBest defaultBook c2WitOrder.side + (i : ℚ) * oppAdj defaultBook c2WitOrder.side,
          (oppVol defaultBook c2WitOrder.side).getD i 0, OrderType.market_order⟩) ∧
      (oppVol defaultBook c2WitOrder.side).sum - (oppVol s' c2WitOrder.side).sum =
        ((oppVol defaultBook c2WitOrder.side).take (c2WitOrder.level + 1)).sum ∧
      oppBest s' c2WitOrder.side =
        oppBest defaultBook c2WitOrder.side +
          ((c2WitOrder.level + 1 : ℕ) : ℚ) * oppAdj defaultBook c2WitOrder.side ∧
      ∀ q, defaultBook.update { c2WitOrder with qty := q } = some s' :=
  ⟨rfl, by decide, c2_sweep_depth_driven defaultBook c2WitOrder rfl (by decide)⟩

/-- `process_cancel_order` never touches `book_depth`, `spread`, `tick` or
`timestamp`. -/
lemma process_cancel_struct {s : OrderBookSnapshot} {o : Order} {t : OrderBookSnapshot}
    (h : s.process_cancel_order o = some t) :
    t.book_depth = s.book_depth ∧ t.spread = s.spread ∧ t.tick = s.tick ∧
      t.timestamp = s.timestamp := by
  unfold OrderBookSnapshot.process_cancel_order at h
  cases hside : o.side with
  | buy =>
    rw [hside] at h
    obtain ⟨r, hr, rfl⟩ := Option.map_eq_some'.mp h
    exact ⟨rfl, rfl, rfl, rfl⟩
  | sell =>
    rw [hside] at h
    obtain ⟨r, hr, rfl⟩ := Option.map_eq_some'.mp h
    exact ⟨rfl, rfl, rfl, rfl⟩

/-- `process_limit_order` never touches `book_depth`, `spread`, `tick` or
`timestamp`. -/
lemma process_limit_struct {s : OrderBookSnapshot} {o : Order} {t : OrderBookSnapshot}
    (h : s.process_limit_order o = some t) :
    t.book_depth = s.book_depth ∧ t.spread = s.spread ∧ t.tick = s.tick ∧
      t.timestamp = s.timestamp := by
  unfold OrderBookSnapshot.process_limit_order at h
  cases hside : o.side with
  | buy =>
    rw [hside] at h
    obtain ⟨r, hr, rfl⟩ := Option.map_eq_some'.mp h
    exact ⟨rfl, rfl, rfl, rfl⟩
  | sell =>
    rw [hside] at h
    obtain ⟨r, hr, rfl⟩ := Option.map_eq_some'.mp h
    exact ⟨rfl, rfl, rfl, rfl⟩

/-- `process_sweep_order` never touches `book_depth`, `spread`, `tick` or
`timestamp`. -/
lemma process_sweep_struct {s : OrderBookSnapshot} {o : Order} {t : OrderBookSnapshot}
    (h : s.process_sweep_order o = some t) :
    t.book_depth = s.book_depth ∧ t.spread = s.spread ∧ t.tick = s.tick ∧
      t.timestamp = s.timestamp := by
  unfold OrderBookSnapshot.process_sweep_order at h
  cases hside : o.side with
  | buy =>
    rw [hside] at h
    obtain ⟨r, hr, rfl⟩ := Option.map_eq_some'.mp h
    exact ⟨rfl, rfl, rfl, rfl⟩
  | sell =>
    rw [hside] at h
    obtain ⟨r, hr, rfl⟩ := Option.map_eq_some'.mp h
    exact ⟨rfl, rfl, rfl, rfl⟩

/-- `update` carries `book_depth`, the `spread` field and `tick` over
unchanged, whatever the order type, and stamps the order's timestamp. -/
lemma update_struct {s : OrderBookSnapshot} {o : Order} {s' : OrderBookSnapshot}
    (h : s.update o = some s') :
    s'.book_depth = s.book_depth ∧ s'.spread = s.spread ∧ s'.tick = s.tick ∧
      s'.timestamp = o.timestamp := by
  unfold OrderBookSnapshot.update at h
  obtain ⟨t, ht, rfl⟩ := Option.map_eq_some'.mp h
  cases hot : o.order_type with
  | cancel_order =>
    rw [hot] at ht
    obtain ⟨h1, h2, h3, h4⟩ := process_cancel_struct ht
    exact ⟨h1, h2, h3, h4⟩
  | market_order =>
    rw [hot] at ht
    obtain ⟨h1, h2, h3, h4⟩ := process_sweep_struct ht
    exact ⟨h1, h2, h3, h4⟩
  | limit_order =>
    rw [hot] at ht
    obtain ⟨h1, h2, h3, h4⟩ := process_limit_struct ht
    exact ⟨h1, h2, h3, h4⟩
  | midpoint_order =>
    rw [hot] at ht
    cases ht
    exact ⟨rfl, rfl, rfl, rfl⟩

/-- C4 (amended): the returned snapshot's `spread` field is *not* recomputed
from its own best prices: `update` carries the input snapshot's `spread` (and
`tick`) over unchanged on every path, and no path rejects a resulting state
(the operation's only failure mode is an out-of-range level). -/
theorem c4_spread_not_recomputed (s : OrderBookSnapshot) (o : Order)
    (s' : OrderBookSnapshot) (h : s.update o = some s') :
    s'.spread = s.spread ∧ s'.tick = s.tick :=
  ⟨(update_struct h).2.1, (update_struct h).2.2.1⟩

/-- C4 counterexample: cancelling the whole best-bid volume of the default
book moves the best bid one tick down, after which the snapshot's `spread`
field (still 1) differs from `round((best_ask − best_bid)/tick)` (now 2), and
`update` returns the state instead of rejecting it. -/
theorem c4_counterexample :
    defaultBook.update c4CxOrder = some c4CxSnap ∧
    c4CxSnap.spread = 1 ∧
    pyInt ((c4CxSnap.nbo - c4CxSnap.nbb) / c4CxSnap.tick) = 2 ∧
    c4CxSnap.spread ≠ pyInt ((c4CxSnap.nbo - c4CxSnap.nbb) / c4CxSnap.tick) :=
  ⟨rfl, by decide, by decide, by decide⟩

/-- C4 witness: the carried-spread theorem applied to a concrete cancel. -/
theorem c4_witness :
    defaultBook.update c4CxOrder = some c4CxSnap ∧
      (c4CxSnap.spread = defaultBook.spread ∧ c4CxSnap.tick = defaultBook.tick) :=
  ⟨rfl, c4_spread_not_recomputed defaultBook c4CxOrder c4CxSnap rfl⟩

/-- C5 counterexample: the claimed resulting bid array `[10,1,1,1,1]` is not
what the code produces for a Buy limit at `level=1, qty=10` on the default
book. -/
theorem c5_counterexample :
    defaultBook.update c5Order = some c5Snap ∧ c5Snap.bid_vol ≠ [10, 1, 1, 1, 1] :=
  ⟨rfl, by decide⟩

/-- C5 (amended): on the default starting book, a Buy limit at
`level=1, qty=10` lands at the existing best bid (`level = spread`), so its
quantity is *added* to the resting unit volume: the bid volumes become
`[11,1,1,1,1]`, with both best prices and the ask side unchanged. -/
theorem c5_scenario :
    defaultBook.update c5Order = some c5Snap ∧ c5Snap.bid_vol = [11, 1, 1, 1, 1] ∧
    c5Snap.nbb = 100 ∧ c5Snap.nbo = 10001 / 100 ∧ c5Snap.ask_vol = [1, 1, 1, 1, 1] :=
  ⟨rfl, by decide, by decide, by decide, by decide⟩

/-- `pyInt` of an integer is that integer. -/
lemma pyInt_intCast (n : ℤ) : pyInt ((n : ℤ) : ℚ) = n := by
  simp [pyInt]

/-- C3: on a price-coherent snapshot (its stored `spread` field matches its
best prices, as every freshly constructed snapshot's does), a limit order with
`level < spread` improves its side's best price by exactly
`(spread − level)` ticks, so the spread in ticks, recomputed from the new best
prices, drops from `spread` to `level` — a strict decrease by exactly
`spread − level` — and the new best volume on that side is exactly the order
quantity, not summed with prior resting volume. -/
theorem c3_limit_improvement (s : OrderBookSnapshot) (o : Order)
    (hot : o.order_type = OrderType.limit_order)
    (hlt : (o.level : ℤ) < s.spread)
    (hcoh : s.nbo - s.nbb = (s.spread : ℚ) * s.tick)
    (htick : 0 < s.tick) :
    ∃ s', s.update o = some s' ∧
      pyInt ((s.nbo - s.nbb) / s.tick) = s.spread ∧
      sideBest s' o.side =
        sideBest s o.side + ((s.spread : ℚ) - (o.level : ℚ)) * towardAdj s o.side ∧
      s'.nbo - s'.nbb = (o.level : ℚ) * s'.tick ∧
      pyInt ((s'.nbo - s'.nbb) / s'.tick) = (o.level : ℤ) ∧
      (sideVol s' o.side).head? = some (o.qty : ℤ) := by
  have htick' : s.tick ≠ 0 := ne_of_gt htick
  have hold : pyInt ((s.nbo - s.nbb) / s.tick) = s.spread := by
    rw [hcoh, mul_div_assoc, div_self htick', mul_one, pyInt_intCast]
  have hk : (s.spread - (o.level : ℤ)).toNat =
      ((s.spread - (o.level : ℤ)).toNat - 1) + 1 := by omega
  have hns : ¬ s.spread ≤ (o.level : ℤ) := by omega
  cases hside : o.side with
  | buy =>
    have hupd : s.update o = some
        { s with
            timestamp := o.timestamp
            bid_vol := padVol ((o.qty : ℤ) ::
              (List.replicate ((s.spread - (o.level : ℤ)).toNat - 1) 0 ++ s.bid_vol))
              s.book_depth
            ask_vol := padVol s.ask_vol s.book_depth
            nbb := s.nbb + ((s.spread : ℚ) - (o.level : ℚ)) * s.tick } := by
      simp only [OrderBookSnapshot.update, OrderBookSnapshot.process_limit_order, hot, hside,
        limitCore, if_neg hns]
      rw [hk, List.replicate_succ]
      simp
    refine ⟨_, hupd, hold, ?_, ?_, ?_, ?_⟩
    · simp [sideBest, towardAdj]
    · simp only
      linear_combination hcoh
    · simp only
      have harg : s.nbo - (s.nbb + ((s.spread : ℚ) - (o.level : ℚ)) * s.tick) =
          (o.level : ℚ) * s.tick := by
        linear_combination hcoh
      rw [harg, mul_div_assoc, div_self htick', mul_one]
      have hcast : ((o.level : ℚ)) = (((o.level : ℤ) : ℚ)) := by push_cast; rfl
      rw [hcast, pyInt_intCast]
    · simp [sideVol, padVol]
  | sell =>
    have hupd : s.update o = some
        { s with
            timestamp := o.timestamp
            ask_vol := padVol ((o.qty : ℤ) ::
              (List.replicate ((s.spread - (o.level : ℤ)).toNat - 1) 0 ++ s.ask_vol))
              s.book_depth
            bid_vol := padVol s.bid_vol s.book_depth
            nbo := s.nbo + ((s.spread : ℚ) - (o.level : ℚ)) * (-s.tick) } := by
      simp only [OrderBookSnapshot.update, OrderBookSnapshot.process_limit_order, hot, hside,
        limitCore, if_neg hns]
      rw [hk, List.replicate_succ]
      simp
    refine ⟨_, hupd, hold, ?_, ?_, ?_, ?_⟩
    · simp [sideBest, towardAdj]
    · simp only
      linear_combination hcoh
    · simp only
      have harg : s.nbo + ((s.spread : ℚ) - (o.level : ℚ)) * (-s.tick) - s.nbb =
          (o.level : ℚ) * s.tick := by
        linear_combination hcoh
      rw [harg, mul_div_assoc, div_self htick', mul_one]
      have hcast : ((o.level : ℚ)) = (((o.level : ℤ) : ℚ)) := by push_cast; rfl
      rw [hcast, pyInt_intCast]
    · simp [sideVol, padVol]

/-- C3 witness: the improvement theorem applied to a Buy limit one tick inside
the default book's spread. -/
theorem c3_witness :
    c3WitOrder.order_type = OrderType.limit_order ∧
    (c3WitOrder.level : ℤ) < defaultBook.spread ∧
    defaultBook.nbo - defaultBook.nbb = (defaultBook.spread : ℚ) * defaultBook.tick ∧
    0 < defaultBook.tick ∧
    ∃ s', defaultBook.update c3WitOrder = some s' ∧
      pyInt ((defaultBook.nbo - defaultBook.nbb) / defaultBook.tick) = defaultBook.spread ∧
      sideBest s' c3WitOrder.side =
        sideBest defaultBook c3WitOrder.side +
          ((defaultBook.spread : ℚ) - (c3WitOrder.level : ℚ)) *
            towardAdj defaultBook c3WitOrder.side ∧
      s'.nbo - s'.nbb = (c3WitOrder.level : ℚ) * s'.tick ∧
      pyInt ((s'.nbo - s'.nbb) / s'.tick) = (c3WitOrder.level : ℤ) ∧
      (sideVol s' c3WitOrder.side).head? = some (c3WitOrder.qty : ℤ) :=
  ⟨rfl, by decide, by decide, by decide,
    c3_limit_improvement defaultBook c3WitOrder rfl (by decide) (by decide) (by decide)⟩

/-- Setting some index known to be 0 and then dropping the head is just
dropping the head. -/
lemma set_zero_tail (l : List ℤ) (n : ℕ) (x : ℤ) (hn : n = 0) : (l.set n x).tail = l.tail := by
  subst hn
  cases l <;> rfl

/-- Reading index 0 of a list just set at an index known to be 0. -/
lemma getElem?_set_zero (l : List ℤ) (n : ℕ) (x : ℤ) (hn : n = 0) (h : n < l.length) :
    (l.set n x)[0]? = some x := by
  subst hn
  exact List.getElem?_set_eq_of_lt x h

/-- C8: a cancel order with an in-range level leaves the touched entry at
`max(0, original − qty)` (so no volume is ever driven negative); when
`level = 0` and that remaining top volume is zero, the level is popped and the
side's best price moves one tick away from the midpoint (down for Buy, up for
Sell), otherwise the best price is unchanged. -/
theorem c8_cancel_clamps (s : OrderBookSnapshot) (o : Order)
    (hot : o.order_type = OrderType.cancel_order)
    (hlen : o.level < (sideVol s o.side).length) :
    ∃ s', s.update o = some s' ∧
      (∀ w, (sideVol s o.side)[o.level]? = some w →
        (¬ (o.level = 0 ∧ max 0 (w - (o.qty : ℤ)) = 0) →
          sideVol s' o.side =
            padVol ((sideVol s o.side).set o.level (max 0 (w - (o.qty : ℤ))))
              s.book_depth ∧
          (sideVol s' o.side)[o.level]? = some (max 0 (w - (o.qty : ℤ))) ∧
          sideBest s' o.side = sideBest s o.side) ∧
        ((o.level = 0 ∧ max 0 (w - (o.qty : ℤ)) = 0) →
          sideVol s' o.side = padVol ((sideVol s o.side).tail) s.book_depth ∧
          sideBest s' o.side = sideBest s o.side + awayAdj s o.side)) ∧
      ((∀ v ∈ sideVol s o.side, 0 ≤ v) → ∀ v ∈ sideVol s' o.side, 0 ≤ v) := by
  cases hside : o.side with
  | buy =>
    have hlen' : o.level < s.bid_vol.length := by simpa [sideVol, hside] using hlen
    obtain ⟨w0, hw0⟩ : ∃ w, s.bid_vol[o.level]? = some w :=
      ⟨_, List.getElem?_eq_getElem hlen'⟩
    by_cases hpop : o.level = 0 ∧ max 0 (w0 - (o.qty : ℤ)) = 0
    · obtain ⟨h0, hz⟩ := hpop
      have hcondpos : o.level = 0 ∧
          (s.bid_vol.set o.level (w0 - min (o.qty : ℤ) w0))[0]? = some 0 := by
        refine ⟨h0, ?_⟩
        rw [getElem?_set_zero _ _ _ h0 hlen']
        have hval : w0 - min (o.qty : ℤ) w0 = 0 := by omega
        rw [hval]
      have hupd : s.update o = some
          { s with
              timestamp := o.timestamp
              bid_vol := padVol s.bid_vol.tail s.book_depth
              ask_vol := padVol s.ask_vol s.book_depth
              nbb := s.nbb + -s.tick } := by
        simp only [OrderBookSnapshot.update, OrderBookSnapshot.process_cancel_order, hot,
          hside, cancelCore, hw0]
        rw [if_pos hcondpos, set_zero_tail _ _ _ h0]
        rfl
      refine ⟨_, hupd, ?_, ?_⟩
      · intro w hw
        simp only [sideVol] at hw
        rw [hw0] at hw
        injection hw with hww
        subst hww
        exact ⟨fun hc => absurd ⟨h0, hz⟩ hc,
          fun _ => ⟨by simp [sideVol], by simp [sideBest, awayAdj]⟩⟩
      · intro hnn v hv
        simp only [sideVol] at hv ⊢
        exact padVol_nonneg _ _
          (fun u hu => hnn u ((List.tail_sublist _).subset hu)) v hv
    · have hcond : ¬ (o.level = 0 ∧
          (s.bid_vol.set o.level (w0 - min (o.qty : ℤ) w0))[0]? = some 0) := by
        rintro ⟨h0, hz⟩
        rw [getElem?_set_zero _ _ _ h0 hlen'] at hz
        injection hz with hz'
        exact hpop ⟨h0, by omega⟩
      have hmax : w0 - min (o.qty : ℤ) w0 = max 0 (w0 - (o.qty : ℤ)) := by omega
      have hupd : s.update o = some
          { s with
              timestamp := o.timestamp
              bid_vol := padVol
                (s.bid_vol.set o.level (max 0 (w0 - (o.qty : ℤ)))) s.book_depth
              ask_vol := padVol s.ask_vol s.book_depth } := by
        simp only [OrderBookSnapshot.update, OrderBookSnapshot.process_cancel_order, hot,
          hside, cancelCore, hw0]
        rw [if_neg hcond, hmax]
        rfl
      refine ⟨_, hupd, ?_, ?_⟩
      · intro w hw
        simp only [sideVol] at hw
        rw [hw0] at hw
        injection hw with hww
        subst hww
        refine ⟨fun _ => ⟨by simp [sideVol], ?_, by simp [sideBest]⟩,
          fun hc => absurd hc hpop⟩
        simp only [sideVol, padVol]
        rw [List.getElem?_append_left (by simpa using hlen'),
          List.getElem?_set_eq_of_lt _ hlen']
      · intro hnn v hv
        simp only [sideVol] at hv ⊢
        refine padVol_nonneg _ _ (fun u hu => ?_) v hv
        rcases List.mem_or_eq_of_mem_set hu with h1 | h1
        · exact hnn u h1
        · omega
  | sell =>
    have hlen' : o.level < s.ask_vol.length := by simpa [sideVol, hside] using hlen
    obtain ⟨w0, hw0⟩ : ∃ w, s.ask_vol[o.level]? = some w :=
      ⟨_, List.getElem?_eq_getElem hlen'⟩
    by_cases hpop : o.level = 0 ∧ max 0 (w0 - (o.qty : ℤ)) = 0
    · obtain ⟨h0, hz⟩ := hpop
      have hcondpos : o.level = 0 ∧
          (s.ask_vol.set o.level (w0 - min (o.qty : ℤ) w0))[0]? = some 0 := by
        refine ⟨h0, ?_⟩
        rw [getElem?_set_zero _ _ _ h0 hlen']
        have hval : w0 - min (o.qty : ℤ) w0 = 0 := by omega
        rw [hval]
      have hupd : s.update o = some
          { s with
              timestamp := o.timestamp
              ask_vol := padVol s.ask_vol.tail s.book_depth
              bid_vol := padVol s.bid_vol s.book_depth
              nbo := s.nbo + s.tick } := by
        simp only [OrderBookSnapshot.update, OrderBookSnapshot.process_cancel_order, hot,
          hside, cancelCore, hw0]
        rw [if_pos hcondpos, set_zero_tail _ _ _ h0]
        rfl
      refine ⟨_, hupd, ?_, ?_⟩
      · intro w hw
        simp only [sideVol] at hw
        rw [hw0] at hw
        injection hw with hww
        subst hww
        exact ⟨fun hc => absurd ⟨h0, hz⟩ hc,
          fun _ => ⟨by simp [sideVol], by simp [sideBest, awayAdj]⟩⟩
      · intro hnn v hv
        simp only [sideVol] at hv ⊢
        exact padVol_nonneg _ _
          (fun u hu => hnn u ((List.tail_sublist _).subset hu)) v hv
    · have hcond : ¬ (o.level = 0 ∧
          (s.ask_vol.set o.level (w0 - min (o.qty : ℤ) w0))[0]? = some 0) := by
        rintro ⟨h0, hz⟩
        rw [getElem?_set_zero _ _ _ h0 hlen'] at hz
        injection hz with hz'
        exact hpop ⟨h0, by omega⟩
      have hmax : w0 - min (o.qty : ℤ) w0 = max 0 (w0 - (o.qty : ℤ)) := by omega
      have hupd : s.update o = some
          { s with
              timestamp := o.timestamp
              ask_vol := padVol
                (s.ask_vol.set o.level (max 0 (w0 - (o.qty : ℤ)))) s.book_depth
              bid_vol := padVol s.bid_vol s.book_depth } := by
        simp only [OrderBookSnapshot.update, OrderBookSnapshot.process_cancel_order, hot,
          hside, cancelCore, hw0]
        rw [if_neg hcond, hmax]
        rfl
      refine ⟨_, hupd, ?_, ?_⟩
      · intro w hw
        simp only [sideVol] at hw
        rw [hw0] at hw
        injection hw with hww
        subst hww
        refine ⟨fun _ => ⟨by simp [sideVol], ?_, by simp [sideBest]⟩,
          fun hc => absurd hc hpop⟩
        simp only [sideVol, padVol]
        rw [List.getElem?_append_left (by simpa using hlen'),
          List.getElem?_set_eq_of_lt _ hlen']
      · intro hnn v hv
        simp only [sideVol] at hv ⊢
        refine padVol_nonneg _ _ (fun u hu => ?_) v hv
        rcases List.mem_or_eq_of_mem_set hu with h1 | h1
        · exact hnn u h1
        · omega

/-- C8 witness: the cancel theorem applied to a one-unit cancel at the best
bid of the default book. -/
theorem c8_witness :
    c8WitOrder.order_type = OrderType.cancel_order ∧
    c8WitOrder.level < (sideVol defaultBook c8WitOrder.side).length ∧
    ∃ s', defaultBook.update c8WitOrder = some s' ∧
      (∀ w, (sideVol defaultBook c8WitOrder.side)[c8WitOrder.level]? = some w →
        (¬ (c8WitOrder.level = 0 ∧ max 0 (w - (c8WitOrder.qty : ℤ)) = 0) →
          sideVol s' c8WitOrder.side =
            padVol ((sideVol defaultBook c8WitOrder.side).set c8WitOrder.level
              (max 0 (w - (c8WitOrder.qty : ℤ)))) defaultBook.book_depth ∧
          (sideVol s' c8WitOrder.side)[c8WitOrder.level]? =
            some (max 0 (w - (c8WitOrder.qty : ℤ))) ∧
          sideBest s' c8WitOrder.side = sideBest defaultBook c8WitOrder.side) ∧
        ((c8WitOrder.level = 0 ∧ max 0 (w - (c8WitOrder.qty : ℤ)) = 0) →
          sideVol s' c8WitOrder.side =
            padVol ((sideVol defaultBook c8WitOrder.side).tail) defaultBook.book_depth ∧
          sideBest s' c8WitOrder.side =
            sideBest defaultBook c8WitOrder.side + awayAdj defaultBook c8WitOrder.side)) ∧
      ((∀ v ∈ sideVol defaultBook c8WitOrder.side, 0 ≤ v) →
        ∀ v ∈ sideVol s' c8WitOrder.side, 0 ≤ v) :=
  ⟨rfl, by decide, c8_cancel_clamps defaultBook c8WitOrder rfl (by decide)⟩


/-- C9: the heap-level view of `update` never mutates its input snapshot: the
deep copy is a fresh cell at the end of the store, every cell that existed
before the call — in particular the input snapshot's cell `r`, with all its
fields (timestamp, best bid/ask, spread, volume lists, trade list) — holds
exactly the same value afterwards, and the returned reference is the fresh
cell. -/
theorem c9_update_no_mutation (heap : List OrderBookSnapshot) (r : ℕ) (o : Order)
    (h2 : List OrderBookSnapshot) (r2 : ℕ) (h : updateAt heap r o = some (h2, r2)) :
    r2 = heap.length ∧ h2[r]? = heap[r]? ∧ ∀ i, i < heap.length → h2[i]? = heap[i]? := by
  unfold updateAt at h
  cases hg : heap[r]? with
  | none => rw [hg] at h; cases h
  | some s =>
    rw [hg] at h
    simp only at h
    cases hu : s.update o with
    | none => rw [hu] at h; cases h
    | some s1 =>
      rw [hu] at h
      injection h with h'
      injection h' with hheap href
      have hframe : ∀ i, i < heap.length → (heap ++ [s1])[i]? = heap[i]? :=
        fun i hi => List.getElem?_append_left hi
      have hr : r < heap.length := (List.getElem?_eq_some.mp hg).1
      subst hheap href
      exact ⟨rfl, (hframe r hr).trans hg, hframe⟩

/-- C9 witness: the frame theorem applied to a one-cell heap holding the
default book. -/
theorem c9_witness :
    updateAt [defaultBook] 0 c5Order = some ([defaultBook, c5Snap], 1) ∧
      (1 = [defaultBook].length ∧
        [defaultBook, c5Snap][0]? = [defaultBook][0]? ∧
        ∀ i, i < [defaultBook].length → [defaultBook, c5Snap][i]? = [defaultBook][i]?) :=
  ⟨rfl, c9_update_no_mutation [defaultBook] 0 c5Order [defaultBook, c5Snap] 1 rfl⟩



/-- `bisect_left` never exceeds the list length. -/
lemma bisectLeft_le_length (l : List ℤ) (x : ℤ) : bisectLeft l x ≤ l.length :=
  List.countP_le_length _

/-- On a sorted key list, everything strictly before the `bisect_left`
insertion point is strictly below the key. -/
lemma bisectLeft_take_lt (l : List ℤ) (x : ℤ) (hs : List.Sorted (· ≤ ·) l) :
    ∀ a ∈ l.take (bisectLeft l x), a < x := by
  induction l with
  | nil => simp [bisectLeft]
  | cons k t ih =>
    obtain ⟨hk, ht⟩ := List.sorted_cons.mp hs
    by_cases hkx : k < x
    · have hc : bisectLeft (k :: t) x = bisectLeft t x + 1 := by
        simp [bisectLeft, List.countP_cons, hkx]
      rw [hc]
      intro a ha
      rw [List.take_succ_cons] at ha
      rcases List.mem_cons.mp ha with rfl | ha2
      · exact hkx
      · exact ih ht a ha2
    · have ht0 : t.countP (fun a => decide (a < x)) = 0 := by
        refine List.countP_eq_zero.mpr (fun a ha => ?_)
        simp only [decide_eq_true_eq]
        exact fun hax => hkx (lt_of_le_of_lt (hk a ha) hax)
      have hc : bisectLeft (k :: t) x = 0 := by
        simp [bisectLeft, List.countP_cons, hkx, ht0]
      rw [hc]
      simp

/-- On a sorted key list, everything from the `bisect_left` insertion point on
is at least the key. -/
lemma bisectLeft_drop_ge (l : List ℤ) (x : ℤ) (hs : List.Sorted (· ≤ ·) l) :
    ∀ a ∈ l.drop (bisectLeft l x), x ≤ a := by
  induction l with
  | nil => simp [bisectLeft]
  | cons k t ih =>
    obtain ⟨hk, ht⟩ := List.sorted_cons.mp hs
    by_cases hkx : k < x
    · have hc : bisectLeft (k :: t) x = bisectLeft t x + 1 := by
        simp [bisectLeft, List.countP_cons, hkx]
      rw [hc]
      intro a ha
      rw [List.drop_succ_cons] at ha
      exact ih ht a ha
    · have ht0 : t.countP (fun a => decide (a < x)) = 0 := by
        refine List.countP_eq_zero.mpr (fun a ha => ?_)
        simp only [decide_eq_true_eq]
        exact fun hax => hkx (lt_of_le_of_lt (hk a ha) hax)
      have hc : bisectLeft (k :: t) x = 0 := by
        simp [bisectLeft, List.countP_cons, hkx, ht0]
      rw [hc, List.drop_zero]
      intro a ha
      rcases List.mem_cons.mp ha with rfl | ha2
      · exact le_of_not_lt hkx
      · exact le_trans (le_of_not_lt hkx) (hk a ha2)

/-- Inserting the key at its `bisect_left` position keeps a sorted key list
sorted. -/
lemma sorted_insert_bisect (l : List ℤ) (x : ℤ) (hs : List.Sorted (· ≤ ·) l) :
    List.Sorted (· ≤ ·)
      (l.take (bisectLeft l x) ++ x :: l.drop (bisectLeft l x)) := by
  rw [List.Sorted, List.pairwise_append]
  refine ⟨hs.sublist (List.take_sublist _ _), ?_, ?_⟩
  · rw [List.pairwise_cons]
    exact ⟨fun b hb => bisectLeft_drop_ge l x hs b hb,
      hs.sublist (List.drop_sublist _ _)⟩
  · intro a ha b hb
    rcases List.mem_cons.mp hb with hbx | hb2
    · rw [hbx]
      exact le_of_lt (bisectLeft_take_lt l x hs a ha)
    · have hcross := (List.pairwise_append.mp
        (show List.Pairwise (· ≤ ·)
            (l.take (bisectLeft l x) ++ l.drop (bisectLeft l x)) by
          rw [List.take_append_drop]
          exact hs)).2.2
      exact hcross a ha b hb2

/-- `add_snapshot` preserves the history invariant (sorted timestamps, all
bounded by `end_time`). -/
lemma histInv_add (h : OrderBookHistory) (snap : OrderBookSnapshot)
    (hi : HistInv h) : HistInv (h.add_snapshot snap) := by
  obtain ⟨hs, hb⟩ := hi
  unfold OrderBookHistory.add_snapshot
  by_cases hle : h.end_time ≤ snap.timestamp
  · rw [if_pos hle]
    constructor
    · simp only [tsList, List.map_append, List.map_cons, List.map_nil]
      rw [List.Sorted, List.pairwise_append]
      refine ⟨hs, List.pairwise_singleton _ _, ?_⟩
      intro a ha b hb2
      rcases List.mem_singleton.mp hb2 with rfl
      exact le_trans (hb a ha) hle
    · intro u hu
      simp only [tsList, List.map_append, List.map_cons, List.map_nil] at hu
      rcases List.mem_append.mp hu with h1 | h1
      · exact le_trans (hb u h1) hle
      · rcases List.mem_singleton.mp h1 with rfl
        exact le_refl _
  · rw [if_neg hle]
    push_neg at hle
    constructor
    · simp only [tsList, List.map_append, List.map_cons, List.map_take, List.map_drop]
      exact sorted_insert_bisect (tsList h) snap.timestamp hs
    · intro u hu
      simp only [tsList, List.map_append, List.map_cons, List.map_take,
        List.map_drop] at hu
      rcases List.mem_append.mp hu with h1 | h1
      · exact hb u ((List.take_sublist _ _).subset h1)
      · rcases List.mem_cons.mp h1 with rfl | h2
        · exact le_of_lt hle
        · exact hb u ((List.drop_sublist _ _).subset h2)

/-- `buildHistory` preserves the history invariant. -/
lemma histInv_build (l : List OrderBookSnapshot) :
    ∀ (h : OrderBookHistory), HistInv h → HistInv (buildHistory h l) := by
  induction l with
  | nil => exact fun h hi => hi
  | cons s rest ih => exact fun h hi => ih _ (histInv_add h s hi)

/-- Every history built from a fresh `OrderBookHistory` satisfies the
invariant. -/
lemma histInv_histOf (st : ℤ) (tick nbb nbo : ℚ) (depth : ℕ)
    (prev : List OrderBookSnapshot) : HistInv (histOf st tick nbb nbo depth prev) := by
  refine histInv_build prev _ ⟨?_, ?_⟩ <;>
    simp [tsList, OrderBookHistory.init, HistInv]

/-- C7: for every sequence of `add_snapshot` calls with arbitrary timestamps,
the stored snapshot sequence stays sorted non-decreasing by timestamp after
every insert; a snapshot with `timestamp ≥ end_time` is appended at the tail
with `end_time` updated, while an out-of-order snapshot is inserted at the
`bisect_left` position, in front of every stored snapshot of equal timestamp
(everything before the insertion point is strictly earlier). -/
theorem c7_add_snapshot_sorted (st : ℤ) (tick nbb nbo : ℚ) (depth : ℕ)
    (prev : List OrderBookSnapshot) (snap : OrderBookSnapshot) :
    List.Sorted (· ≤ ·)
      (tsList ((histOf st tick nbb nbo depth prev).add_snapshot snap)) ∧
    ((histOf st tick nbb nbo depth prev).end_time ≤ snap.timestamp →
      ((histOf st tick nbb nbo depth prev).add_snapshot snap).snapshots =
        (histOf st tick nbb nbo depth prev).snapshots ++ [snap] ∧
      ((histOf st tick nbb nbo depth prev).add_snapshot snap).end_time =
        snap.timestamp) ∧
    (¬ (histOf st tick nbb nbo depth prev).end_time ≤ snap.timestamp →
      ((histOf st tick nbb nbo depth prev).add_snapshot snap).snapshots =
        (histOf st tick nbb nbo depth prev).snapshots.take
            (bisectLeft (tsList (histOf st tick nbb nbo depth prev)) snap.timestamp) ++
          snap :: (histOf st tick nbb nbo depth prev).snapshots.drop
            (bisectLeft (tsList (histOf st tick nbb nbo depth prev)) snap.timestamp) ∧
      ∀ a ∈ (histOf st tick nbb nbo depth prev).snapshots.take
          (bisectLeft (tsList (histOf st tick nbb nbo depth prev)) snap.timestamp),
        a.timestamp < snap.timestamp) := by
  have hinv := histInv_histOf st tick nbb nbo depth prev
  refine ⟨(histInv_add _ _ hinv).1, ?_, ?_⟩
  · intro hle
    unfold OrderBookHistory.add_snapshot
    rw [if_pos hle]
    exact ⟨rfl, rfl⟩
  · intro hle
    unfold OrderBookHistory.add_snapshot
    rw [if_neg hle]
    refine ⟨rfl, ?_⟩
    intro a ha
    have hmem : a.timestamp ∈ (tsList (histOf st tick nbb nbo depth prev)).take
        (bisectLeft (tsList (histOf st tick nbb nbo depth prev)) snap.timestamp) := by
      rw [tsList, ← List.map_take]
      exact List.mem_map_of_mem _ ha
    exact bisectLeft_take_lt _ _ hinv.1 _ hmem

/-- C7 witness: the theorem applied to an out-of-order insert at timestamp 15
between stored timestamps 10 and 20. -/
theorem c7_witness :
    List.Sorted (· ≤ ·)
      (tsList ((histOf 0 (1 / 100) 100 (10001 / 100) 5 c7Prev).add_snapshot c7Snap)) ∧
    ((histOf 0 (1 / 100) 100 (10001 / 100) 5 c7Prev).end_time ≤ c7Snap.timestamp →
      ((histOf 0 (1 / 100) 100 (10001 / 100) 5 c7Prev).add_snapshot c7Snap).snapshots =
        (histOf 0 (1 / 100) 100 (10001 / 100) 5 c7Prev).snapshots ++ [c7Snap] ∧
      ((histOf 0 (1 / 100) 100 (10001 / 100) 5 c7Prev).add_snapshot c7Snap).end_time =
        c7Snap.timestamp) ∧
    (¬ (histOf 0 (1 / 100) 100 (10001 / 100) 5 c7Prev).end_time ≤ c7Snap.timestamp →
      ((histOf 0 (1 / 100) 100 (10001 / 100) 5 c7Prev).add_snapshot c7Snap).snapshots =
        (histOf 0 (1 / 100) 100 (10001 / 100) 5 c7Prev).snapshots.take
            (bisectLeft (tsList (histOf 0 (1 / 100) 100 (10001 / 100) 5 c7Prev))
              c7Snap.timestamp) ++
          c7Snap :: (histOf 0 (1 / 100) 100 (10001 / 100) 5 c7Prev).snapshots.drop
            (bisectLeft (tsList (histOf 0 (1 / 100) 100 (10001 / 100) 5 c7Prev))
              c7Snap.timestamp) ∧
      ∀ a ∈ (histOf 0 (1 / 100) 100 (10001 / 100) 5 c7Prev).snapshots.take
          (bisectLeft (tsList (histOf 0 (1 / 100) 100 (10001 / 100) 5 c7Prev))
            c7Snap.timestamp),
        a.timestamp < c7Snap.timestamp) :=
  c7_add_snapshot_sorted 0 (1 / 100) 100 (10001 / 100) 5 c7Prev c7Snap

/-- C6 (amended): `get_snapshot` returns the *index* (an integer, not the
snapshot) of the last stored snapshot with timestamp *strictly less than* the
query — a snapshot with timestamp exactly equal to the query is skipped — and
returns `-1` exactly when no stored snapshot is strictly earlier than the
query. -/
theorem c6_get_snapshot_strictly_before (st : ℤ) (tick nbb nbo : ℚ) (depth : ℕ)
    (prev : List OrderBookSnapshot) (t : ℤ) :
    ((histOf st tick nbb nbo depth prev).get_snapshot t = -1 ↔
      ∀ ts ∈ tsList (histOf st tick nbb nbo depth prev), t ≤ ts) ∧
    ∀ n : ℕ, (histOf st tick nbb nbo depth prev).get_snapshot t = (n : ℤ) →
      ∃ ts0, (tsList (histOf st tick nbb nbo depth prev))[n]? = some ts0 ∧ ts0 < t ∧
        ∀ ts ∈ (tsList (histOf st tick nbb nbo depth prev)).drop (n + 1), t ≤ ts := by
  have hinv := histInv_histOf st tick nbb nbo depth prev
  constructor
  · unfold OrderBookHistory.get_snapshot
    constructor
    · intro he u hu
      have hc : bisectLeft (tsList (histOf st tick nbb nbo depth prev)) t = 0 := by omega
      have hz := List.countP_eq_zero.mp hc u hu
      simp only [decide_eq_true_eq] at hz
      exact le_of_not_lt hz
    · intro hall
      have hc : bisectLeft (tsList (histOf st tick nbb nbo depth prev)) t = 0 := by
        refine List.countP_eq_zero.mpr (fun a ha => ?_)
        simp only [decide_eq_true_eq]
        exact not_lt.mpr (hall a ha)
      rw [hc]
      rfl
  · intro n hn
    unfold OrderBookHistory.get_snapshot at hn
    have hc : bisectLeft (tsList (histOf st tick nbb nbo depth prev)) t = n + 1 := by omega
    have hlen : n < (tsList (histOf st tick nbb nbo depth prev)).length := by
      have := bisectLeft_le_length (tsList (histOf st tick nbb nbo depth prev)) t
      omega
    refine ⟨(tsList (histOf st tick nbb nbo depth prev))[n], List.getElem?_eq_getElem hlen, ?_, ?_⟩
    · have hmem : (tsList (histOf st tick nbb nbo depth prev))[n] ∈
          (tsList (histOf st tick nbb nbo depth prev)).take
            (bisectLeft (tsList (histOf st tick nbb nbo depth prev)) t) := by
        have hsome : ((tsList (histOf st tick nbb nbo depth prev)).take
            (bisectLeft (tsList (histOf st tick nbb nbo depth prev)) t))[n]? =
              some (tsList (histOf st tick nbb nbo depth prev))[n] := by
          rw [List.getElem?_take, hc, if_pos (by omega)]
          exact List.getElem?_eq_getElem hlen
        obtain ⟨hlt, heq⟩ := List.getElem?_eq_some.mp hsome
        rw [← heq]
        exact List.getElem_mem hlt
      exact bisectLeft_take_lt _ _ hinv.1 _ hmem
    · intro ts hts
      rw [show n + 1 = bisectLeft (tsList (histOf st tick nbb nbo depth prev)) t
        from hc.symm] at hts
      exact bisectLeft_drop_ge _ _ hinv.1 ts hts

/-- C6 counterexample: with a single stored snapshot at timestamp 10,
`get_snapshot 10` answers `-1` ("not found") even though a stored snapshot
with timestamp ≤ 10 exists — the code returns the index of the last snapshot
strictly *before* the query, not at-or-before, and it returns an index, not a
snapshot. -/
theorem c6_counterexample :
    tsList c6CxHist = [10] ∧ c6CxHist.get_snapshot 10 = -1 :=
  ⟨by decide, by decide⟩

/-- C6 witness: the characterization theorem applied to the query `t = 15`
against stored timestamps 10 and 20. -/
theorem c6_witness :
    ((histOf 0 (1 / 100) 100 (10001 / 100) 5 c7Prev).get_snapshot 15 = -1 ↔
      ∀ ts ∈ tsList (histOf 0 (1 / 100) 100 (10001 / 100) 5 c7Prev), 15 ≤ ts) ∧
    ∀ n : ℕ, (histOf 0 (1 / 100) 100 (10001 / 100) 5 c7Prev).get_snapshot 15 = (n : ℤ) →
      ∃ ts0, (tsList (histOf 0 (1 / 100) 100 (10001 / 100) 5 c7Prev))[n]? = some ts0 ∧
        ts0 < 15 ∧
        ∀ ts ∈ (tsList (histOf 0 (1 / 100) 100 (10001 / 100) 5 c7Prev)).drop (n + 1),
          15 ≤ ts :=
  c6_get_snapshot_strictly_before 0 (1 / 100) 100 (10001 / 100) 5 c7Prev 15



/-- C10 (amended): the generated order's timestamp is the snapshot's timestamp
plus the sampled inter-arrival gap, and since the gap
`int(-timestep_ms*log(u)/total_rate)` is a nonnegative integer, consecutive
timestamps are non-decreasing — but not strictly increasing, because the gap
truncates to 0 whenever the sampled value is below 1 (see the
counterexample). -/
theorem c10_next_order_timestamp (m : MarketParams) (s : OrderBookSnapshot)
    (d : Draws) (o : Order) (h : Market.get_next_order m s d = some o) :
    o.timestamp = s.timestamp + (d.gapDraw : ℤ) ∧ s.timestamp ≤ o.timestamp := by
  unfold Market.get_next_order at h
  cases h1 : (ordList s.book_depth s.spread)[d.idx]? with
  | none =>
    rw [h1] at h
    simp only at h
    cases h
  | some ot =>
    rw [h1] at h
    cases h2 : (lvlList s.book_depth s.spread)[d.idx]? with
    | none =>
      rw [h2] at h
      simp only at h
      cases h
    | some lv =>
      rw [h2] at h
      simp only at h
      injection h with h'
      subst h'
      exact ⟨rfl, by simp⟩

/-- C10 witness: the timestamp theorem applied to a concrete draw with gap 3
on the default book. -/
theorem c10_witness :
    Market.get_next_order defaultMarketParams defaultBook c10WitDraw = some c10WitOrder ∧
      (c10WitOrder.timestamp = defaultBook.timestamp + (c10WitDraw.gapDraw : ℤ) ∧
        defaultBook.timestamp ≤ c10WitOrder.timestamp) :=
  ⟨rfl, c10_next_order_timestamp defaultMarketParams defaultBook c10WitDraw c10WitOrder rfl⟩

/-- C10 counterexample: on the default book the aggregate rate is `185/12`,
and the uniform draw `u = 9/10 ∈ [1e-3, 1)` makes the code's inter-arrival
expression `int(-timestep_ms * log(u) / total_rate)` equal to 0 (the argument
is nonnegative and below 1, so truncation is the floor and yields 0); the
order generated with that gap carries a timestamp *equal* to the snapshot's,
not strictly greater. -/
theorem c10_counterexample :
    totalRate defaultMarketParams defaultBook = 185 / 12 ∧
    (∃ u : ℝ, 1 / 1000 ≤ u ∧ u < 1 ∧
      0 ≤ -((defaultMarketParams.timestep_ms : ℤ) : ℝ) * Real.log u ∧
      Int.floor ((-((defaultMarketParams.timestep_ms : ℤ) : ℝ) * Real.log u) /
        ((totalRate defaultMarketParams defaultBook : ℚ) : ℝ)) = 0) ∧
    Market.get_next_order defaultMarketParams defaultBook c10CxDraw = some c10CxOrder ∧
    c10CxOrder.timestamp = defaultBook.timestamp ∧
    ¬ defaultBook.timestamp < c10CxOrder.timestamp := by
  have htr : totalRate defaultMarketParams defaultBook = 185 / 12 := by decide
  have hts : ((defaultMarketParams.timestep_ms : ℤ) : ℝ) = 100 := by
    norm_num [defaultMarketParams]
  have hcast : ((totalRate defaultMarketParams defaultBook : ℚ) : ℝ) = 185 / 12 := by
    rw [htr]
    norm_num
  refine ⟨htr, ⟨9 / 10, by norm_num, by norm_num, ?_, ?_⟩, rfl, rfl, by decide⟩
  · have hlog : Real.log (9 / 10 : ℝ) ≤ 0 := Real.log_nonpos (by norm_num) (by norm_num)
    rw [hts]
    nlinarith [hlog]
  · have hlog : Real.log (9 / 10 : ℝ) ≤ 0 := Real.log_nonpos (by norm_num) (by norm_num)
    have hneg : -Real.log (9 / 10 : ℝ) ≤ 1 / 9 := by
      have h1 : -Real.log (9 / 10 : ℝ) = Real.log ((9 / 10 : ℝ)⁻¹) := (Real.log_inv _).symm
      have h2 : ((9 / 10 : ℝ)⁻¹) = 10 / 9 := by norm_num
      have h3 := Real.log_le_sub_one_of_pos (show (0 : ℝ) < 10 / 9 by norm_num)
      rw [h1, h2]
      linarith
    rw [hts, hcast, Int.floor_eq_zero_iff]
    constructor
    · apply div_nonneg
      · nlinarith [hlog]
      · norm_num
    · rw [div_lt_one (by norm_num : (0 : ℝ) < 185 / 12)]
      nlinarith [hneg]


end LOB
